import Mathlib

/-!
Verification of the image-strip merger (`src/predict.py`).

The embedding models each image by its dimensions (`Img`), since every
property of interest (harmonisation, canvas geometry, paste offsets,
export parameters) depends only on widths and heights, the strategy,
orientation and alignment strings, the border thickness and the output
format/quality.  Fallible Python code (`raise ValueError`, `max`/`min`
on an empty sequence) is modelled with `Except String`.
-/

/-- An in-memory raster image, abstracted to its dimensions.
`im.size` in Pillow is the pair `(width, height)`. -/
structure Img where
  width : Nat
  height : Nat
deriving DecidableEq

/-- `im.size[axis]` from the Python code: index 0 is the width,
index 1 (or anything non-zero, which never occurs) is the height. -/
def imSize (im : Img) (axis : Nat) : Nat :=
  if axis = 0 then im.width else im.height

/-- The axis index the harmoniser works on, from
`axis = 1 if orientation == "horizontal" else 0` in `_harmonise`. -/
def harmAxis (orientation : String) : Nat :=
  if orientation = "horizontal" then 1 else 0

/-- Python's `round` (banker's rounding, half to even) applied to the
exact rational `num / den`.  `_resize_axis` computes
`round(h * target / w)`; all quantities are non-negative and the
divisor is a positive image dimension wherever the code calls this. -/
def pyRound (num den : Nat) : Nat :=
  let q := num / den
  let r := num % den
  if 2 * r < den then q
  else if den < 2 * r then q + 1
  else if q % 2 = 0 then q else q + 1

/-- Python's `max(sizes)`: fails on an empty sequence. -/
def pyMax (l : List Nat) : Except String Nat :=
  match l with
  | [] => Except.error "empty sequence has no maximal element"
  | x :: xs => Except.ok (xs.foldl max x)

/-- Python's `min(sizes)`: fails on an empty sequence. -/
def pyMin (l : List Nat) : Except String Nat :=
  match l with
  | [] => Except.error "empty sequence has no minimal element"
  | x :: xs => Except.ok (xs.foldl min x)

/-- `Predictor._resize_axis`: resize `im` so that axis `ax` becomes
`target`; when `keepAr` is set the other axis is rescaled by the same
factor and rounded, otherwise it is left unchanged. -/
def resize_axis (im : Img) (ax : Nat) (target : Nat) (keepAr : Bool) : Img :=
  if ax = 0 then
    { width := target
      height := if keepAr then pyRound (im.height * target) im.width else im.height }
  else
    { width := if keepAr then pyRound (im.width * target) im.height else im.width
      height := target }

/-- A Pillow crop box `(left, top, right, bottom)`.  Coordinates are
integers: Python's floor division can in principle go negative. -/
structure Box where
  left : Int
  top : Int
  right : Int
  bottom : Int
deriving DecidableEq

/-- The crop box computed by `Predictor._crop_axis`:
`left = (im.width - target) // 2` (floor division) for axis 0, and
symmetrically `top = (im.height - target) // 2` for axis 1. -/
def cropBox (im : Img) (ax : Nat) (target : Nat) : Box :=
  if ax = 0 then
    let left := Int.fdiv ((im.width : Int) - (target : Int)) 2
    { left := left, top := 0, right := left + (target : Int), bottom := (im.height : Int) }
  else
    let top := Int.fdiv ((im.height : Int) - (target : Int)) 2
    { left := 0, top := top, right := (im.width : Int), bottom := top + (target : Int) }

/-- `Predictor._crop_axis`: the image cropped to its box.  The final
Boolean mirrors the ignored `keep_ar` argument of the Python function.
`im.crop(box)` always yields an image of size
`(right - left, bottom - top)`. -/
def crop_axis (im : Img) (ax : Nat) (target : Nat) (_ : Bool) : Img :=
  let b := cropBox im ax target
  { width := (b.right - b.left).toNat, height := (b.bottom - b.top).toNat }

/-- The `sizes = [im.size[axis] for im in images]` line of
`_harmonise`, with the axis already resolved from the orientation. -/
def harmSizes (images : List Img) (orientation : String) : List Nat :=
  images.map (fun im => imSize im (harmAxis orientation))

/-- `Predictor._harmonise`: equalise the images' sizes along the axis
selected by the orientation, according to the strategy.  Mirrors the
Python control flow: the two short-circuit returns, the
`len(set(sizes)) == 1` test (all sizes equal), the three strategy
branches and the final `raise ValueError`. -/
def harmonise (images : List Img) (orientation strategy : String) (keepAr : Bool) :
    Except String (List Img) :=
  if images.length = 1 ∨ strategy = "none" then Except.ok images
  else if (harmSizes images orientation).dedup.length = 1 then Except.ok images
  else if strategy = "magnify_smaller" then
    (pyMax (harmSizes images orientation)).bind fun target =>
      Except.ok (List.zipWith
        (fun im sz => if sz < target then resize_axis im (harmAxis orientation) target keepAr else im)
        images (harmSizes images orientation))
  else if strategy = "reduce_larger" then
    (pyMin (harmSizes images orientation)).bind fun target =>
      Except.ok (List.zipWith
        (fun im sz => if target < sz then resize_axis im (harmAxis orientation) target keepAr else im)
        images (harmSizes images orientation))
  else if strategy = "crop_larger" then
    (pyMin (harmSizes images orientation)).bind fun target =>
      Except.ok (List.zipWith
        (fun im sz => if target < sz then crop_axis im (harmAxis orientation) target keepAr else im)
        images (harmSizes images orientation))
  else Except.error "Unknown resize_strategy"

/-- Canvas dimensions from step 3 of `predict`: along the orientation,
the sum of the image sizes plus `border * (count + 1)`; across it, the
maximum image size plus `border * 2`.  `max` over an empty generator
would fail in Python, hence the `Except`. -/
def canvasSize (pics : List Img) (orientation : String) (border : Nat) :
    Except String (Nat × Nat) :=
  if orientation = "horizontal" then
    (pyMax (pics.map (fun im => im.height))).bind fun mh =>
      Except.ok ((pics.map (fun im => im.width)).sum + border * (pics.length + 1),
                 mh + border * 2)
  else
    (pyMax (pics.map (fun im => im.width))).bind fun mw =>
      Except.ok (mw + border * 2,
                 (pics.map (fun im => im.height)).sum + border * (pics.length + 1))

/-- `Predictor._aligned_offset`: translate an alignment keyword into a
pixel offset inside a container; unknown keywords raise. -/
def aligned_offset (container item : Int) (align : String) : Except String Int :=
  if align = "start" then Except.ok 0
  else if align = "center" then Except.ok (Int.fdiv (container - item) 2)
  else if align = "end" then Except.ok (container - item)
  else Except.error "alignment must be start, center, or end"

/-- The value returned by `_aligned_offset` on the three valid
keywords (used to state theorems without threading `Except`). -/
def alignValue (container item : Int) (align : String) : Int :=
  if align = "start" then 0
  else if align = "center" then Int.fdiv (container - item) 2
  else container - item

/-- The paste loop of step 4 of `predict`, carrying the running
offsets `ox, oy` (both start at the border thickness) and returning
the top-left paste position of each image in order. -/
def pasteLoop (pics : List Img) (orientation align : String) (inner : Nat)
    (cw ch : Nat) (ox oy : Int) : Except String (List (Int × Int)) :=
  match pics with
  | [] => Except.ok []
  | im :: rest =>
    if orientation = "horizontal" then
      (aligned_offset ((ch : Int) - (inner : Int) * 2) (im.height : Int) align).bind fun a =>
        (pasteLoop rest orientation align inner cw ch (ox + (im.width : Int) + (inner : Int)) oy).bind fun tail =>
          Except.ok ((ox, oy + a) :: tail)
    else
      (aligned_offset ((cw : Int) - (inner : Int) * 2) (im.width : Int) align).bind fun a =>
        (pasteLoop rest orientation align inner cw ch ox (oy + (im.height : Int) + (inner : Int))).bind fun tail =>
          Except.ok ((ox + a, oy) :: tail)

/-- Paste positions of all images: the loop started with
`ox, oy = inner, inner`. -/
def pasteOffsets (pics : List Img) (orientation align : String) (inner : Nat)
    (cw ch : Nat) : Except String (List (Int × Int)) :=
  pasteLoop pics orientation align inner cw ch (inner : Int) (inner : Int)

/-- Format normalisation from step 5 of `predict`:
`ext = output_format.lower()`, then `jpeg` becomes `jpg`. -/
def normExt (fmt : String) : String :=
  let e := fmt.toLower
  if e = "jpeg" then "jpg" else e

/-- The encoder parameters assembled by step 5 of `predict`:
`quality` is `some q` exactly when the key is put into `save_params`. -/
structure SaveParams where
  quality : Option Nat
  optimize : Bool
  lossless : Bool
deriving DecidableEq

/-- `save_params` as built by `predict` for a normalised extension
`ext` and quality `q`: quality and the optimize flag for `jpg` and
`webp` only, plus the lossless toggle for `webp` at quality 100. -/
def saveParams (ext : String) (q : Nat) : SaveParams :=
  if ext = "jpg" ∨ ext = "webp" then
    { quality := some q
      optimize := true
      lossless := ext = "webp" ∧ q = 100 }
  else
    { quality := none, optimize := false, lossless := false }

/-- The gathering of the five fixed input slots:
`[img for img in (image1, image2, image3, image4, image5) if img is not None]`,
where `image1` is required and the rest are optional. -/
def gatherImages {α : Type} (image1 : α) (image2 image3 image4 image5 : Option α) :
    List α :=
  ([some image1, image2, image3, image4, image5].filterMap id)

/-! ## Helper lemmas -/

theorem foldl_max_spec (xs : List Nat) (a : Nat) :
    xs.foldl max a ∈ a :: xs ∧ a ≤ xs.foldl max a ∧ ∀ x ∈ xs, x ≤ xs.foldl max a := by
  induction xs generalizing a with
  | nil => simp
  | cons y ys ih =>
    obtain ⟨hmem, hle, hall⟩ := ih (max a y)
    simp only [List.foldl]
    refine ⟨?_, ?_, ?_⟩
    · rcases List.mem_cons.mp hmem with h | h
      · rcases max_choice a y with hc | hc <;> simp [h.trans hc]
      · simp [List.mem_cons, h]
    · exact le_trans (le_max_left a y) hle
    · intro x hx
      rcases List.mem_cons.mp hx with rfl | hx'
      · exact le_trans (le_max_right a x) hle
      · exact hall x hx'

theorem foldl_min_spec (xs : List Nat) (a : Nat) :
    xs.foldl min a ∈ a :: xs ∧ xs.foldl min a ≤ a ∧ ∀ x ∈ xs, xs.foldl min a ≤ x := by
  induction xs generalizing a with
  | nil => simp
  | cons y ys ih =>
    obtain ⟨hmem, hle, hall⟩ := ih (min a y)
    simp only [List.foldl]
    refine ⟨?_, ?_, ?_⟩
    · rcases List.mem_cons.mp hmem with h | h
      · rcases min_choice a y with hc | hc <;> simp [h.trans hc]
      · simp [List.mem_cons, h]
    · exact le_trans hle (min_le_left a y)
    · intro x hx
      rcases List.mem_cons.mp hx with rfl | hx'
      · exact le_trans hle (min_le_right a x)
      · exact hall x hx'

theorem pyMax_spec (l : List Nat) (m : Nat) (h : pyMax l = Except.ok m) :
    m ∈ l ∧ ∀ x ∈ l, x ≤ m := by
  match l with
  | [] => exact absurd h (by simp [pyMax])
  | x :: xs =>
    obtain ⟨hmem, hle, hall⟩ := foldl_max_spec xs x
    have hm : m = xs.foldl max x := by
      simpa [pyMax] using h.symm
    subst hm
    exact ⟨hmem, fun y hy => by
      rcases List.mem_cons.mp hy with rfl | hy'
      · exact hle
      · exact hall y hy'⟩

theorem pyMin_spec (l : List Nat) (m : Nat) (h : pyMin l = Except.ok m) :
    m ∈ l ∧ ∀ x ∈ l, m ≤ x := by
  match l with
  | [] => exact absurd h (by simp [pyMin])
  | x :: xs =>
    obtain ⟨hmem, hle, hall⟩ := foldl_min_spec xs x
    have hm : m = xs.foldl min x := by
      simpa [pyMin] using h.symm
    subst hm
    exact ⟨hmem, fun y hy => by
      rcases List.mem_cons.mp hy with rfl | hy'
      · exact hle
      · exact hall y hy'⟩

theorem zipWith_self_map {α β γ : Type} (h : α → β → γ) (g : α → β) (l : List α) :
    List.zipWith h l (l.map g) = l.map (fun a => h a (g a)) := by
  induction l with
  | nil => rfl
  | cons x xs ih => simp [ih]

theorem map_eq_self_mem {α : Type} (f : α → α) (l : List α) (h : l.map f = l) :
    ∀ x ∈ l, f x = x := by
  induction l with
  | nil => simp
  | cons a t ih =>
    simp only [List.map, List.cons.injEq] at h
    intro x hx
    rcases List.mem_cons.mp hx with rfl | hx'
    · exact h.1
    · exact ih h.2 x hx'

theorem dedup_length_eq_one {α : Type} [DecidableEq α] (l : List α) :
    l.dedup.length = 1 ↔ (l ≠ [] ∧ ∀ a ∈ l, ∀ b ∈ l, a = b) := by
  constructor
  · intro h
    obtain ⟨v, hv⟩ := List.length_eq_one.mp h
    refine ⟨?_, ?_⟩
    · intro hnil
      subst hnil
      simp at hv
    · intro a ha b hb
      have ha2 : a ∈ l.dedup := (List.mem_dedup).mpr ha
      have hb2 : b ∈ l.dedup := (List.mem_dedup).mpr hb
      rw [hv] at ha2 hb2
      simp at ha2 hb2
      rw [ha2, hb2]
  · rintro ⟨hne, hall⟩
    cases hd : l.dedup with
    | nil => exact absurd ((List.dedup_eq_nil l).mp hd) hne
    | cons a t =>
      cases t with
      | nil => simp
      | cons b t2 =>
        have ha : a ∈ l := List.mem_dedup.mp (by rw [hd]; simp)
        have hb : b ∈ l := List.mem_dedup.mp (by rw [hd]; simp)
        have hnd := l.nodup_dedup
        rw [hd] at hnd
        have hab : a ≠ b := by
          intro e
          subst e
          simp at hnd
        exact absurd (hall a ha b hb) hab

theorem harmSizes_all_eq (images : List Img) (orientation : String) :
    (harmSizes images orientation).dedup.length = 1 ↔
      (images ≠ [] ∧ ∀ a ∈ images, ∀ b ∈ images,
        imSize a (harmAxis orientation) = imSize b (harmAxis orientation)) := by
  rw [dedup_length_eq_one]
  constructor
  · rintro ⟨hne, hall⟩
    refine ⟨?_, ?_⟩
    · intro hnil
      subst hnil
      simp [harmSizes] at hne
    · intro a ha b hb
      exact hall _ (by simp [harmSizes]; exact ⟨a, ha, rfl⟩)
             _ (by simp [harmSizes]; exact ⟨b, hb, rfl⟩)
  · rintro ⟨hne, hall⟩
    refine ⟨?_, ?_⟩
    · simpa [harmSizes] using hne
    · intro x hx y hy
      simp only [harmSizes, List.mem_map] at hx hy
      obtain ⟨a, ha, rfl⟩ := hx
      obtain ⟨b, hb, rfl⟩ := hy
      exact hall a ha b hb

theorem imSize_resize (im : Img) (ax target : Nat) (k : Bool) :
    imSize (resize_axis im ax target k) ax = target := by
  by_cases h : ax = 0 <;> simp [resize_axis, imSize, h]

theorem imSize_crop (im : Img) (ax target : Nat) (k : Bool) :
    imSize (crop_axis im ax target k) ax = target := by
  by_cases h : ax = 0 <;> simp [crop_axis, cropBox, imSize, h]

theorem aligned_offset_valid (c i : Int) (align : String)
    (hal : align = "start" ∨ align = "center" ∨ align = "end") :
    aligned_offset c i align = Except.ok (alignValue c i align) := by
  rcases hal with h | h | h <;> subst h <;> simp [aligned_offset, alignValue]

theorem pasteLoop_h (align : String) (b cw ch : Nat)
    (hal : align = "start" ∨ align = "center" ∨ align = "end") :
    ∀ (pics : List Img) (ox oy : Int) (offs : List (Int × Int)),
      pasteLoop pics "horizontal" align b cw ch ox oy = Except.ok offs →
      offs.length = pics.length ∧
      ∀ i (hi : i < pics.length) (hi2 : i < offs.length),
        offs[i] = (ox + (((pics.take i).map fun im => (im.width : Int) + (b : Int)).sum),
                   oy + alignValue ((ch : Int) - (b : Int) * 2) ((pics[i]).height : Int) align) := by
  intro pics
  induction pics with
  | nil =>
    intro ox oy offs h
    simp only [pasteLoop] at h
    injection h with h
    subst h
    simp
  | cons im rest ih =>
    intro ox oy offs h
    simp only [pasteLoop, if_pos, aligned_offset_valid _ _ _ hal, Except.bind] at h
    cases hrec : pasteLoop rest "horizontal" align b cw ch (ox + (im.width : Int) + (b : Int)) oy with
    | error e =>
      rw [hrec] at h
      exact absurd h (by simp)
    | ok tail =>
      rw [hrec] at h
      simp only [Except.bind] at h
      injection h with h
      subst h
      obtain ⟨hlen, hidx⟩ := ih _ _ _ hrec
      refine ⟨by simp [hlen], ?_⟩
      intro i hi hi2
      cases i with
      | zero =>
        simp [alignValue]
      | succ j =>
        have hj : j < rest.length := by simpa using hi
        have hj2 : j < tail.length := by simpa using hi2
        have := hidx j hj hj2
        simp only [List.getElem_cons_succ, List.take_succ_cons, List.map_cons, List.sum_cons]
        rw [this]
        refine Prod.ext ?_ rfl
        push_cast
        ring

theorem pasteLoop_v (align : String) (b cw ch : Nat)
    (hal : align = "start" ∨ align = "center" ∨ align = "end") :
    ∀ (pics : List Img) (ox oy : Int) (offs : List (Int × Int)),
      pasteLoop pics "vertical" align b cw ch ox oy = Except.ok offs →
      offs.length = pics.length ∧
      ∀ i (hi : i < pics.length) (hi2 : i < offs.length),
        offs[i] = (ox + alignValue ((cw : Int) - (b : Int) * 2) ((pics[i]).width : Int) align,
                   oy + (((pics.take i).map fun im => (im.height : Int) + (b : Int)).sum)) := by
  intro pics
  induction pics with
  | nil =>
    intro ox oy offs h
    simp only [pasteLoop] at h
    injection h with h
    subst h
    simp
  | cons im rest ih =>
    intro ox oy offs h
    simp only [pasteLoop, aligned_offset_valid _ _ _ hal, Except.bind,
      String.reduceEq, if_false] at h
    cases hrec : pasteLoop rest "vertical" align b cw ch ox (oy + (im.height : Int) + (b : Int)) with
    | error e =>
      rw [hrec] at h
      exact absurd h (by simp)
    | ok tail =>
      rw [hrec] at h
      simp only [Except.bind] at h
      injection h with h
      subst h
      obtain ⟨hlen, hidx⟩ := ih _ _ _ hrec
      refine ⟨by simp [hlen], ?_⟩
      intro i hi hi2
      cases i with
      | zero =>
        simp [alignValue]
      | succ j =>
        have hj : j < rest.length := by simpa using hi
        have hj2 : j < tail.length := by simpa using hi2
        have := hidx j hj hj2
        simp only [List.getElem_cons_succ, List.take_succ_cons, List.map_cons, List.sum_cons]
        rw [this]
        refine Prod.ext rfl ?_
        push_cast
        ring

/-! ## Claim theorems -/

/-- C3: for every non-empty list of images, either border thickness and
either orientation, the canvas merge-axis size is the sum of the
images' merge-axis sizes plus `b * (count + 1)`, and the cross-axis
size is the maximum cross-axis size plus `b * 2`.  (The `pyMax`
hypotheses express that the maxima exist, i.e. the list is
non-empty.) -/
theorem canvas_size_formula (pics : List Img) (b H W : Nat)
    (hH : pyMax (pics.map fun im => im.height) = Except.ok H)
    (hW : pyMax (pics.map fun im => im.width) = Except.ok W) :
    canvasSize pics "horizontal" b =
      Except.ok ((pics.map fun im => im.width).sum + b * (pics.length + 1), H + b * 2)
    ∧ canvasSize pics "vertical" b =
      Except.ok (W + b * 2, (pics.map fun im => im.height).sum + b * (pics.length + 1)) := by
  constructor <;> simp [canvasSize, hH, hW, Except.bind]

/-- Witness for `canvas_size_formula` at two concrete images. -/
theorem canvas_size_formula_witness :
    canvasSize [⟨100, 50⟩, ⟨80, 40⟩] "horizontal" 3 = Except.ok (189, 56)
    ∧ canvasSize [⟨100, 50⟩, ⟨80, 40⟩] "vertical" 3 = Except.ok (106, 99) := by
  have h := canvas_size_formula [⟨100, 50⟩, ⟨80, 40⟩] 3 50 100 (by rfl) (by rfl)
  exact ⟨h.1.trans (by rfl), h.2.trans (by rfl)⟩

/-- C7: the alignment resolver returns 0 for `start`,
`(container - item) // 2` (floor division, possibly negative) for
`center`, `container - item` for `end`; `resolve(100, 40, _)` gives
0, 30, 60; and any other keyword fails. -/
theorem aligned_offset_spec (c i : Int) (a : String)
    (ha1 : a ≠ "start") (ha2 : a ≠ "center") (ha3 : a ≠ "end") :
    aligned_offset c i "start" = Except.ok 0
    ∧ aligned_offset c i "center" = Except.ok (Int.fdiv (c - i) 2)
    ∧ aligned_offset c i "end" = Except.ok (c - i)
    ∧ aligned_offset 100 40 "start" = Except.ok 0
    ∧ aligned_offset 100 40 "center" = Except.ok 30
    ∧ aligned_offset 100 40 "end" = Except.ok 60
    ∧ aligned_offset 10 15 "center" = Except.ok (-3)
    ∧ aligned_offset c i a = Except.error "alignment must be start, center, or end" := by
  refine ⟨by simp [aligned_offset], by simp [aligned_offset], by simp [aligned_offset],
    by rfl, by rfl, by rfl, by rfl, ?_⟩
  simp [aligned_offset, ha1, ha2, ha3]

/-- Witness for `aligned_offset_spec` at a concrete invalid keyword. -/
theorem aligned_offset_spec_witness :
    (("diagonal" : String) ≠ "start")
    ∧ aligned_offset 0 0 "diagonal" = Except.error "alignment must be start, center, or end" :=
  ⟨by decide,
   (aligned_offset_spec 0 0 "diagonal" (by decide) (by decide) (by decide)).2.2.2.2.2.2.2⟩

/-- C10: the list handed to the pipeline is exactly the supplied slots
in ascending slot order with omitted slots skipped; it is non-empty
and has at most five elements. -/
theorem gatherImages_spec {α : Type} (i1 : α) (i2 i3 i4 i5 : Option α) :
    gatherImages i1 i2 i3 i4 i5 = i1 :: (i2.toList ++ i3.toList ++ i4.toList ++ i5.toList)
    ∧ gatherImages i1 i2 i3 i4 i5 ≠ []
    ∧ (gatherImages i1 i2 i3 i4 i5).length ≤ 5 := by
  refine ⟨?_, ?_, ?_⟩ <;>
    cases i2 <;> cases i3 <;> cases i4 <;> cases i5 <;> simp [gatherImages]

/-- C2 counterexample: with images 100×100 and 50×100,
`reduce_larger`, `keep_aspect_ratio` and horizontal orientation, the
harmoniser returns both images unchanged (their heights already agree,
so the short-circuit fires); the first image is not resized to
50×50. -/
theorem harmonise_scenario_counterexample :
    harmonise [⟨100, 100⟩, ⟨50, 100⟩] "horizontal" "reduce_larger" true =
      Except.ok [⟨100, 100⟩, ⟨50, 100⟩]
    ∧ (⟨100, 100⟩ : Img) ≠ (⟨50, 50⟩ : Img) := by
  exact ⟨by rfl, by decide⟩

/-- C2 amended: on that input the harmoniser is the identity (the
images' heights — the axis harmonised for horizontal orientation —
already agree), and with border 0 the canvas is 150×100, so its
height is 100 as the scenario expects. -/
theorem harmonise_scenario_amended :
    harmonise [⟨100, 100⟩, ⟨50, 100⟩] "horizontal" "reduce_larger" true =
      Except.ok [⟨100, 100⟩, ⟨50, 100⟩]
    ∧ canvasSize [⟨100, 100⟩, ⟨50, 100⟩] "horizontal" 0 = Except.ok (150, 100) := by
  exact ⟨by rfl, by rfl⟩

/-- C1 counterexample: same input, strategy other than `none`, two
images — after harmonisation the merge-axis (width) sizes still
differ, and neither equals the minimal width 50. -/
theorem harmonise_axis_counterexample :
    harmonise [⟨100, 100⟩, ⟨50, 100⟩] "horizontal" "reduce_larger" true =
      Except.ok [⟨100, 100⟩, ⟨50, 100⟩]
    ∧ (⟨100, 100⟩ : Img).width ≠ (⟨50, 100⟩ : Img).width
    ∧ pyMin (([⟨100, 100⟩, ⟨50, 100⟩] : List Img).map fun im => im.width) = Except.ok 50
    ∧ (⟨100, 100⟩ : Img).width ≠ 50 := by
  refine ⟨by rfl, by decide, by rfl, by decide⟩

/-- C4 counterexample: two images of equal width (the merge axis for
horizontal orientation) but different heights; the claim predicts the
identity, yet the code resizes the first image to 50×50. -/
theorem harmonise_identity_counterexample :
    (⟨100, 100⟩ : Img).width = (⟨100, 50⟩ : Img).width
    ∧ harmonise [⟨100, 100⟩, ⟨100, 50⟩] "horizontal" "reduce_larger" true =
        Except.ok [⟨50, 50⟩, ⟨100, 50⟩]
    ∧ ([⟨50, 50⟩, ⟨100, 50⟩] : List Img) ≠ [⟨100, 100⟩, ⟨100, 50⟩] := by
  refine ⟨by decide, by rfl, by decide⟩

/-- C5 counterexample: under `crop_larger` with horizontal
orientation, the crop changes the height (the claim's cross axis)
from 60 to 30 and leaves the width (the claim's merge axis)
unchanged. -/
theorem crop_axis_counterexample :
    harmonise [⟨100, 60⟩, ⟨100, 30⟩] "horizontal" "crop_larger" true =
      Except.ok [⟨100, 30⟩, ⟨100, 30⟩]
    ∧ (⟨100, 30⟩ : Img).height ≠ (⟨100, 60⟩ : Img).height
    ∧ (⟨100, 30⟩ : Img).width = (⟨100, 60⟩ : Img).width := by
  refine ⟨by rfl, by decide, by decide⟩

/-- C9 counterexample: an unrecognised strategy on a single-image list
does not raise — the single-image short-circuit returns first. -/
theorem strategy_error_counterexample :
    harmonise [⟨10, 10⟩] "horizontal" "bogus" true = Except.ok [⟨10, 10⟩]
    ∧ ("bogus" : String) ∉ (["none", "magnify_smaller", "reduce_larger", "crop_larger"] : List String) := by
  refine ⟨by rfl, by decide⟩

/-- C8: after format normalisation, the exporter attaches the quality
parameter and the optimize flag exactly for `jpg` and `webp` (never
for `png`, which gets an empty parameter set), and it enables the
lossless flag exactly for `webp` at quality 100. -/
theorem saveParams_spec (fmt : String) (q : Nat) :
    ((saveParams (normExt fmt) q).quality = some q ∧ (saveParams (normExt fmt) q).optimize = true
      ↔ (normExt fmt = "jpg" ∨ normExt fmt = "webp"))
    ∧ (normExt fmt = "png" →
        saveParams (normExt fmt) q = { quality := none, optimize := false, lossless := false })
    ∧ ((saveParams (normExt fmt) q).lossless = true ↔ (normExt fmt = "webp" ∧ q = 100)) := by
  generalize normExt fmt = e
  by_cases h : e = "jpg" ∨ e = "webp"
  · refine ⟨?_, ?_, ?_⟩
    · simp [saveParams, h]
    · intro hp
      rcases h with h | h <;> rw [h] at hp <;> simp at hp
    · rcases h with h | h <;> subst h <;>
        simp [saveParams, decide_eq_true_eq]
  · have h2 := not_or.mp h
    refine ⟨?_, ?_, ?_⟩
    · simp [saveParams, h, h2.1, h2.2]
    · intro _
      simp [saveParams, h]
    · simp [saveParams, h, h2.1, h2.2]

theorem pyMax_of_ne_nil (l : List Nat) (h : l ≠ []) : ∃ m, pyMax l = Except.ok m := by
  cases l with
  | nil => exact absurd rfl h
  | cons x xs => exact ⟨xs.foldl max x, rfl⟩

theorem pyMin_of_ne_nil (l : List Nat) (h : l ≠ []) : ∃ m, pyMin l = Except.ok m := by
  cases l with
  | nil => exact absurd rfl h
  | cons x xs => exact ⟨xs.foldl min x, rfl⟩

theorem exists_ne_of_dedup {α : Type} [DecidableEq α] (l : List α) (hne : l ≠ [])
    (hdl : l.dedup.length ≠ 1) : ∃ a ∈ l, ∃ b ∈ l, a ≠ b := by
  by_contra h
  push_neg at h
  exact hdl ((dedup_length_eq_one l).mpr ⟨hne, h⟩)

theorem zip_branch_sizes (images : List Img) (ax t : Nat) (P : Nat → Prop)
    [DecidablePred P] (f : Img → Img)
    (hf : ∀ im, imSize (f im) ax = t)
    (hp : ∀ im ∈ images, ¬ P (imSize im ax) → imSize im ax = t) :
    ∀ a ∈ images.map (fun im => if P (imSize im ax) then f im else im),
      imSize a ax = t := by
  intro a ha
  obtain ⟨im, him, rfl⟩ := List.mem_map.mp ha
  by_cases h : P (imSize im ax)
  · rw [if_pos h]
    exact hf im
  · rw [if_neg h]
    exact hp im him h

theorem harmonise_result_sizes (images : List Img) (orientation strategy : String)
    (keepAr : Bool) (out : List Img) (t : Nat)
    (hok : harmonise images orientation strategy keepAr = Except.ok out)
    (h1 : images.length ≠ 1)
    (hsn : strategy ≠ "none")
    (ht : (strategy = "magnify_smaller" ∧ pyMax (harmSizes images orientation) = Except.ok t)
        ∨ ((strategy = "reduce_larger" ∨ strategy = "crop_larger")
            ∧ pyMin (harmSizes images orientation) = Except.ok t)) :
    ∀ a ∈ out, imSize a (harmAxis orientation) = t := by
  unfold harmonise at hok
  rw [if_neg (not_or.mpr ⟨h1, hsn⟩)] at hok
  by_cases hdl : (harmSizes images orientation).dedup.length = 1
  · rw [if_pos hdl] at hok
    injection hok with hok
    subst hok
    obtain ⟨hne, hall⟩ := (dedup_length_eq_one _).mp hdl
    have hmem : t ∈ harmSizes images orientation := by
      rcases ht with ⟨_, hmax⟩ | ⟨_, hmin⟩
      · exact (pyMax_spec _ _ hmax).1
      · exact (pyMin_spec _ _ hmin).1
    intro a ha
    exact hall _ (List.mem_map_of_mem _ ha) _ hmem
  · rw [if_neg hdl] at hok
    rcases ht with ⟨rfl, hmax⟩ | ⟨hsr, hmin⟩
    · rw [if_pos rfl, hmax] at hok
      simp only [Except.bind] at hok
      injection hok with hok
      subst hok
      simp only [harmSizes, zipWith_self_map]
      refine zip_branch_sizes images _ t (fun s => s < t) _ (fun im => imSize_resize _ _ _ _) ?_
      intro im him hlt
      have hle : imSize im (harmAxis orientation) ≤ t := by
        simpa using (pyMax_spec _ _ hmax).2 _
          (List.mem_map_of_mem (fun im => imSize im (harmAxis orientation)) him)
      omega
    · rcases hsr with rfl | rfl
      · rw [if_neg (by decide), if_pos rfl, hmin] at hok
        simp only [Except.bind] at hok
        injection hok with hok
        subst hok
        simp only [harmSizes, zipWith_self_map]
        refine zip_branch_sizes images _ t (fun s => t < s) _ (fun im => imSize_resize _ _ _ _) ?_
        intro im him hlt
        have hle : t ≤ imSize im (harmAxis orientation) := by
          simpa using (pyMin_spec _ _ hmin).2 _
            (List.mem_map_of_mem (fun im => imSize im (harmAxis orientation)) him)
        omega
      · rw [if_neg (by decide), if_neg (by decide), if_pos rfl, hmin] at hok
        simp only [Except.bind] at hok
        injection hok with hok
        subst hok
        simp only [harmSizes, zipWith_self_map]
        refine zip_branch_sizes images _ t (fun s => t < s) _ (fun im => imSize_crop _ _ _ _) ?_
        intro im him hlt
        have hle : t ≤ imSize im (harmAxis orientation) := by
          simpa using (pyMin_spec _ _ hmin).2 _
            (List.mem_map_of_mem (fun im => imSize im (harmAxis orientation)) him)
        omega

/-- C1 amended: for two or more images and any of the three active
strategies, after harmonisation all images have identical size along
the axis the harmoniser equalises — the height for horizontal
orientation and the width for vertical (the axis perpendicular to the
strip, not the merge axis); for `reduce_larger` that common size is
the minimum of the original sizes along that axis, for
`magnify_smaller` the maximum. -/
theorem harmonise_equalises_axis (images : List Img) (orientation strategy : String)
    (keepAr : Bool) (out : List Img)
    (h2 : 2 ≤ images.length)
    (hs : strategy = "magnify_smaller" ∨ strategy = "reduce_larger" ∨ strategy = "crop_larger")
    (hok : harmonise images orientation strategy keepAr = Except.ok out) :
    (∀ a ∈ out, ∀ b ∈ out,
      imSize a (harmAxis orientation) = imSize b (harmAxis orientation))
    ∧ (strategy = "reduce_larger" →
        ∀ m, pyMin (harmSizes images orientation) = Except.ok m →
          ∀ a ∈ out, imSize a (harmAxis orientation) = m)
    ∧ (strategy = "magnify_smaller" →
        ∀ M, pyMax (harmSizes images orientation) = Except.ok M →
          ∀ a ∈ out, imSize a (harmAxis orientation) = M) := by
  have h1 : images.length ≠ 1 := by omega
  have hne : harmSizes images orientation ≠ [] := by
    intro h
    have : images = [] := by simpa [harmSizes] using h
    subst this
    simp at h2
  rcases hs with rfl | rfl | rfl
  · obtain ⟨M, hM⟩ := pyMax_of_ne_nil _ hne
    have hall := harmonise_result_sizes images orientation _ keepAr out M hok h1
      (by decide) (Or.inl ⟨rfl, hM⟩)
    refine ⟨fun a ha b hb => by rw [hall a ha, hall b hb], ?_, ?_⟩
    · intro h
      exact absurd h (by decide)
    · intro _ M' hM'
      rw [hM] at hM'
      injection hM' with hM'
      subst hM'
      exact hall
  · obtain ⟨m, hm⟩ := pyMin_of_ne_nil _ hne
    have hall := harmonise_result_sizes images orientation _ keepAr out m hok h1
      (by decide) (Or.inr ⟨Or.inl rfl, hm⟩)
    refine ⟨fun a ha b hb => by rw [hall a ha, hall b hb], ?_, ?_⟩
    · intro _ m' hm'
      rw [hm] at hm'
      injection hm' with hm'
      subst hm'
      exact hall
    · intro h
      exact absurd h (by decide)
  · obtain ⟨m, hm⟩ := pyMin_of_ne_nil _ hne
    have hall := harmonise_result_sizes images orientation _ keepAr out m hok h1
      (by decide) (Or.inr ⟨Or.inr rfl, hm⟩)
    refine ⟨fun a ha b hb => by rw [hall a ha, hall b hb], ?_, ?_⟩
    · intro h
      exact absurd h (by decide)
    · intro h
      exact absurd h (by decide)

/-- Witness for `harmonise_equalises_axis`: 100×60 and 100×30,
horizontal, `reduce_larger` — the first image becomes 50×30 and both
heights equal the pre-existing minimum 30. -/
theorem harmonise_equalises_axis_witness :
    (2 ≤ ([⟨100, 60⟩, ⟨100, 30⟩] : List Img).length)
    ∧ ∀ a ∈ ([⟨50, 30⟩, ⟨100, 30⟩] : List Img),
        imSize a (harmAxis "horizontal") = 30 :=
  ⟨by decide,
   (harmonise_equalises_axis [⟨100, 60⟩, ⟨100, 30⟩] "horizontal" "reduce_larger" true
      [⟨50, 30⟩, ⟨100, 30⟩] (by decide) (Or.inr (Or.inl rfl)) (by rfl)).2.1 rfl 30 (by rfl)⟩

theorem exists_lt_max (l : List Nat) (M : Nat) (hM : pyMax l = Except.ok M)
    (hdl : l.dedup.length ≠ 1) : ∃ s ∈ l, s < M := by
  have hne : l ≠ [] := by
    intro h
    subst h
    simp [pyMax] at hM
  obtain ⟨a, ha, b, hb, hab⟩ := exists_ne_of_dedup l hne hdl
  have h1 := (pyMax_spec _ _ hM).2 a ha
  have h2 := (pyMax_spec _ _ hM).2 b hb
  by_cases hc : a < M
  · exact ⟨a, ha, hc⟩
  · exact ⟨b, hb, by omega⟩

theorem exists_gt_min (l : List Nat) (m : Nat) (hm : pyMin l = Except.ok m)
    (hdl : l.dedup.length ≠ 1) : ∃ s ∈ l, m < s := by
  have hne : l ≠ [] := by
    intro h
    subst h
    simp [pyMin] at hm
  obtain ⟨a, ha, b, hb, hab⟩ := exists_ne_of_dedup l hne hdl
  have h1 := (pyMin_spec _ _ hm).2 a ha
  have h2 := (pyMin_spec _ _ hm).2 b hb
  by_cases hc : m < a
  · exact ⟨a, ha, hc⟩
  · exact ⟨b, hb, by omega⟩

theorem map_branch_fix {t : Nat} (images : List Img) (ax : Nat) (P : Nat → Prop)
    [DecidablePred P] (f : Img → Img) (im : Img)
    (hok : images.map (fun x => if P (imSize x ax) then f x else x) = images)
    (him : im ∈ images) (hP : P (imSize im ax))
    (hft : imSize (f im) ax = t) : imSize im ax = t := by
  have hfix := map_eq_self_mem _ _ hok im him
  rw [if_pos hP] at hfix
  rw [← hfix]
  exact hft

/-- C4 amended: `harmonise` is the identity exactly on its
short-circuit inputs — a single-element list, strategy `none`, or a
non-empty list whose images already share the same size along the
axis the harmoniser equalises (height for horizontal orientation,
width for vertical; the axis perpendicular to the strip, not the
merge axis the claim names). -/
theorem harmonise_identity_iff (images : List Img) (orientation strategy : String)
    (keepAr : Bool) :
    harmonise images orientation strategy keepAr = Except.ok images ↔
      (images.length = 1 ∨ strategy = "none" ∨
        (images ≠ [] ∧ ∀ a ∈ images, ∀ b ∈ images,
          imSize a (harmAxis orientation) = imSize b (harmAxis orientation))) := by
  constructor
  · intro hok
    by_cases h1 : images.length = 1 ∨ strategy = "none"
    · rcases h1 with h | h
      · exact Or.inl h
      · exact Or.inr (Or.inl h)
    · refine Or.inr (Or.inr ?_)
      unfold harmonise at hok
      rw [if_neg h1] at hok
      by_cases hdl : (harmSizes images orientation).dedup.length = 1
      · exact (harmSizes_all_eq _ _).mp hdl
      · exfalso
        rw [if_neg hdl] at hok
        by_cases hmag : strategy = "magnify_smaller"
        · rw [if_pos hmag] at hok
          by_cases hniz : harmSizes images orientation = []
          · rw [hniz] at hok
            simp [pyMax, Except.bind] at hok
          · obtain ⟨M, hM⟩ := pyMax_of_ne_nil _ hniz
            rw [hM] at hok
            simp only [Except.bind] at hok
            injection hok with hok
            rw [show harmSizes images orientation =
              images.map (fun im => imSize im (harmAxis orientation)) from rfl,
              zipWith_self_map] at hok
            obtain ⟨s, hsmem, hslt⟩ := exists_lt_max _ _ hM hdl
            obtain ⟨im, him, rfl⟩ := List.mem_map.mp hsmem
            have := map_branch_fix images (harmAxis orientation) (fun s => s < M)
              (fun x => resize_axis x (harmAxis orientation) M keepAr) im hok him
              (by simpa using hslt) (imSize_resize _ _ _ _)
            omega
        · rw [if_neg hmag] at hok
          by_cases hred : strategy = "reduce_larger"
          · rw [if_pos hred] at hok
            by_cases hniz : harmSizes images orientation = []
            · rw [hniz] at hok
              simp [pyMin, Except.bind] at hok
            · obtain ⟨m, hm⟩ := pyMin_of_ne_nil _ hniz
              rw [hm] at hok
              simp only [Except.bind] at hok
              injection hok with hok
              rw [show harmSizes images orientation =
                images.map (fun im => imSize im (harmAxis orientation)) from rfl,
                zipWith_self_map] at hok
              obtain ⟨s, hsmem, hslt⟩ := exists_gt_min _ _ hm hdl
              obtain ⟨im, him, rfl⟩ := List.mem_map.mp hsmem
              have := map_branch_fix images (harmAxis orientation) (fun s => m < s)
                (fun x => resize_axis x (harmAxis orientation) m keepAr) im hok him
                (by simpa using hslt) (imSize_resize _ _ _ _)
              omega
          · rw [if_neg hred] at hok
            by_cases hcrop : strategy = "crop_larger"
            · rw [if_pos hcrop] at hok
              by_cases hniz : harmSizes images orientation = []
              · rw [hniz] at hok
                simp [pyMin, Except.bind] at hok
              · obtain ⟨m, hm⟩ := pyMin_of_ne_nil _ hniz
                rw [hm] at hok
                simp only [Except.bind] at hok
                injection hok with hok
                rw [show harmSizes images orientation =
                  images.map (fun im => imSize im (harmAxis orientation)) from rfl,
                  zipWith_self_map] at hok
                obtain ⟨s, hsmem, hslt⟩ := exists_gt_min _ _ hm hdl
                obtain ⟨im, him, rfl⟩ := List.mem_map.mp hsmem
                have := map_branch_fix images (harmAxis orientation) (fun s => m < s)
                  (fun x => crop_axis x (harmAxis orientation) m keepAr) im hok him
                  (by simpa using hslt) (imSize_crop _ _ _ _)
                omega
            · rw [if_neg hcrop] at hok
              exact absurd hok (by simp)
  · intro h
    by_cases h1 : images.length = 1 ∨ strategy = "none"
    · unfold harmonise
      rw [if_pos h1]
    · rcases h with h | h | h
      · exact absurd (Or.inl h) h1
      · exact absurd (Or.inr h) h1
      · unfold harmonise
        rw [if_neg h1, if_pos ((harmSizes_all_eq _ _).mpr h)]

/-- C9 amended: `harmonise` fails with the invalid-strategy error
exactly when the strategy is unrecognised AND neither short-circuit
applies — the list does not have exactly one element and the images do
not already agree along the harmonised axis.  (With a short-circuit
the unrecognised value is returned unchecked; recognised values never
produce this error.) -/
theorem harmonise_strategy_error_iff (images : List Img)
    (orientation strategy : String) (keepAr : Bool) :
    harmonise images orientation strategy keepAr =
        Except.error "Unknown resize_strategy" ↔
      (strategy ≠ "none" ∧ strategy ≠ "magnify_smaller" ∧ strategy ≠ "reduce_larger"
        ∧ strategy ≠ "crop_larger" ∧ images.length ≠ 1
        ∧ ¬(images ≠ [] ∧ ∀ a ∈ images, ∀ b ∈ images,
              imSize a (harmAxis orientation) = imSize b (harmAxis orientation))) := by
  constructor
  · intro hok
    unfold harmonise at hok
    by_cases h1 : images.length = 1 ∨ strategy = "none"
    · rw [if_pos h1] at hok
      exact absurd hok (by simp)
    · rw [if_neg h1] at hok
      have h1n := not_or.mp h1
      by_cases hdl : (harmSizes images orientation).dedup.length = 1
      · rw [if_pos hdl] at hok
        exact absurd hok (by simp)
      · rw [if_neg hdl] at hok
        by_cases hmag : strategy = "magnify_smaller"
        · exfalso
          rw [if_pos hmag] at hok
          by_cases hniz : harmSizes images orientation = []
          · rw [hniz] at hok
            simp [pyMax, Except.bind] at hok
          · obtain ⟨M, hM⟩ := pyMax_of_ne_nil _ hniz
            rw [hM] at hok
            simp only [Except.bind] at hok
            exact absurd hok (by simp)
        · rw [if_neg hmag] at hok
          by_cases hred : strategy = "reduce_larger"
          · exfalso
            rw [if_pos hred] at hok
            by_cases hniz : harmSizes images orientation = []
            · rw [hniz] at hok
              simp [pyMin, Except.bind] at hok
            · obtain ⟨m, hm⟩ := pyMin_of_ne_nil _ hniz
              rw [hm] at hok
              simp only [Except.bind] at hok
              exact absurd hok (by simp)
          · rw [if_neg hred] at hok
            by_cases hcrop : strategy = "crop_larger"
            · exfalso
              rw [if_pos hcrop] at hok
              by_cases hniz : harmSizes images orientation = []
              · rw [hniz] at hok
                simp [pyMin, Except.bind] at hok
              · obtain ⟨m, hm⟩ := pyMin_of_ne_nil _ hniz
                rw [hm] at hok
                simp only [Except.bind] at hok
                exact absurd hok (by simp)
            · exact ⟨h1n.2, hmag, hred, hcrop, h1n.1,
                fun hq => hdl ((harmSizes_all_eq _ _).mpr hq)⟩
  · rintro ⟨hn, hm, hr, hc, hl, hq⟩
    unfold harmonise
    rw [if_neg (not_or.mpr ⟨hl, hn⟩),
      if_neg (fun hdl => hq ((harmSizes_all_eq _ _).mp hdl)),
      if_neg hm, if_neg hr, if_neg hc]

theorem fdiv_two_natCast (m : Nat) : Int.fdiv (m : Int) 2 = (m : Int) / 2 := by
  cases m with
  | zero => rfl
  | succ k => rfl

/-- C5 amended: for every image and every target strictly smaller than
its size along the harmonised axis (height for horizontal orientation,
width for vertical — not the merge axis the claim names), the crop
operation sets that axis exactly to the target, leaves the
perpendicular axis unchanged, and crops symmetrically with
leading-edge offset `(original - target) // 2`. -/
theorem crop_axis_spec (im : Img) (orientation : String) (target : Nat) (k : Bool)
    (hlt : target < imSize im (harmAxis orientation)) :
    imSize (crop_axis im (harmAxis orientation) target k) (harmAxis orientation) = target
    ∧ (orientation = "horizontal" →
        (crop_axis im (harmAxis orientation) target k).width = im.width
        ∧ (cropBox im (harmAxis orientation) target).top =
            (((im.height - target) / 2 : Nat) : Int))
    ∧ (orientation ≠ "horizontal" →
        (crop_axis im (harmAxis orientation) target k).height = im.height
        ∧ (cropBox im (harmAxis orientation) target).left =
            (((im.width - target) / 2 : Nat) : Int)) := by
  refine ⟨imSize_crop _ _ _ _, ?_, ?_⟩
  · intro ho
    have hax : harmAxis orientation = 1 := by simp [harmAxis, ho]
    rw [hax] at hlt ⊢
    simp only [imSize] at hlt
    norm_num at hlt
    constructor
    · simp [crop_axis, cropBox]
    · simp only [cropBox]
      norm_num
      rw [← Nat.cast_sub (le_of_lt hlt)]
      exact fdiv_two_natCast _
  · intro ho
    have hax : harmAxis orientation = 0 := by simp [harmAxis, ho]
    rw [hax] at hlt ⊢
    simp only [imSize] at hlt
    norm_num at hlt
    constructor
    · simp [crop_axis, cropBox]
    · simp only [cropBox]
      norm_num
      rw [← Nat.cast_sub (le_of_lt hlt)]
      exact fdiv_two_natCast _

/-- Witness for `crop_axis_spec`: cropping 100×60 to target height 30
(horizontal orientation) gives height 30, keeps width 100, and starts
at offset 15. -/
theorem crop_axis_spec_witness :
    (30 < imSize ⟨100, 60⟩ (harmAxis "horizontal"))
    ∧ imSize (crop_axis ⟨100, 60⟩ (harmAxis "horizontal") 30 true) (harmAxis "horizontal") = 30
    ∧ (crop_axis ⟨100, 60⟩ (harmAxis "horizontal") 30 true).width = 100
    ∧ (cropBox ⟨100, 60⟩ (harmAxis "horizontal") 30).top = 15 := by
  have h := crop_axis_spec ⟨100, 60⟩ "horizontal" 30 true (by decide)
  refine ⟨by decide, h.1, ?_, ?_⟩
  · exact (h.2.1 rfl).1
  · exact ((h.2.1 rfl).2).trans (by rfl)

/-- C6: images are placed in input order — the merge-axis paste offset
of the i-th image is the border thickness plus the sum over the
preceding images of (merge-axis size + border thickness), and the
cross-axis offset is the border thickness plus the alignment offset
resolved in `canvas_cross_size - 2 * border`. -/
theorem paste_positions (pics : List Img) (align : String) (b cw ch : Nat)
    (offsH offsV : List (Int × Int))
    (hal : align = "start" ∨ align = "center" ∨ align = "end")
    (hH : pasteOffsets pics "horizontal" align b cw ch = Except.ok offsH)
    (hV : pasteOffsets pics "vertical" align b cw ch = Except.ok offsV) :
    offsH.length = pics.length ∧ offsV.length = pics.length
    ∧ (∀ i (hi : i < pics.length) (hi2 : i < offsH.length),
        offsH[i] = ((b : Int) + (((pics.take i).map fun im => (im.width : Int) + (b : Int)).sum),
                    (b : Int) + alignValue ((ch : Int) - (b : Int) * 2) ((pics[i]).height : Int) align))
    ∧ (∀ i (hi : i < pics.length) (hi2 : i < offsV.length),
        offsV[i] = ((b : Int) + alignValue ((cw : Int) - (b : Int) * 2) ((pics[i]).width : Int) align,
                    (b : Int) + (((pics.take i).map fun im => (im.height : Int) + (b : Int)).sum))) := by
  unfold pasteOffsets at hH hV
  obtain ⟨hl1, hf1⟩ := pasteLoop_h align b cw ch hal pics (b : Int) (b : Int) offsH hH
  obtain ⟨hl2, hf2⟩ := pasteLoop_v align b cw ch hal pics (b : Int) (b : Int) offsV hV
  exact ⟨hl1, hl2, hf1, hf2⟩

/-- Witness for `paste_positions`: the spec's three-image scenario,
border 0, centred, canvas 300×50. -/
theorem paste_positions_witness :
    pasteOffsets [⟨100, 50⟩, ⟨80, 50⟩, ⟨120, 50⟩] "horizontal" "center" 0 300 50 =
      Except.ok [((0 : Int), (0 : Int)), (100, 0), (180, 0)]
    ∧ ([((0 : Int), (0 : Int)), (100, 0), (180, 0)] : List (Int × Int)).length = 3 := by
  have h := paste_positions [⟨100, 50⟩, ⟨80, 50⟩, ⟨120, 50⟩] "center" 0 300 50
    [((0 : Int), (0 : Int)), (100, 0), (180, 0)]
    [((100 : Int), (0 : Int)), (110, 50), (90, 100)]
    (Or.inr (Or.inl rfl)) (by rfl) (by rfl)
  exact ⟨by rfl, h.1⟩
